import Mathlib

set_option maxRecDepth 16000

/-!
A shallow embedding of the core of rs.c, the CODAR Range Series editing
utility (rsdump / rsgen): the flat linked-list block model, the recursive
binary block parser, the container size reconciler, the binary writer and
the text-codec helpers.

Modelling conventions:
* machine integers are naturals reduced explicitly modulo 2^32 (uint32_t)
  and 2^64 (unsigned long);
* a byte buffer is a `List ℕ` of byte values; memory beyond the end of the
  allocation is modelled as zero bytes (reads use `List.getD _ 0`);
* the recursive parser carries a fuel argument; `none` marks exhaustion,
  which is how a non-terminating C execution shows up in the model;
* stderr diagnostics for truncated blocks are modelled as a counter
  carried alongside the parsed node list;
* fallible C functions returning an `int` error code become `Option` or,
  where the C caller also observes the partially mutated state
  (`fixup_sizes`), a `Bool × _` pair of the error flag and the state.
-/

namespace RS

/-- 2^32, the modulus of uint32_t arithmetic. -/
def W32 : ℕ := 4294967296

/-- 2^64, the modulus of unsigned long arithmetic. -/
def W64 : ℕ := 18446744073709551616

/-- The block type codes of rs.c, as host-order fourcc values. -/
def KEY_AQFT : ℕ := 0x41514654
def KEY_HEAD : ℕ := 0x48454144
def KEY_sign : ℕ := 0x7369676e
def KEY_mcda : ℕ := 0x6d636461
def KEY_dbrf : ℕ := 0x64627266
def KEY_cnst : ℕ := 0x636e7374
def KEY_hasi : ℕ := 0x68617369
def KEY_swep : ℕ := 0x73776570
def KEY_fbin : ℕ := 0x6662696e
def KEY_BODY : ℕ := 0x424f4459
def KEY_rtag : ℕ := 0x72746167
def KEY_gps1 : ℕ := 0x67707331
def KEY_indx : ℕ := 0x696e6478
def KEY_scal : ℕ := 0x7363616c
def KEY_afft : ℕ := 0x61666674
def KEY_ifft : ℕ := 0x69666674
def KEY_END : ℕ := 0x454e4420

def BINFORMAT_CVIQ : ℕ := 0x63766971
def BINTYPE_FLT4 : ℕ := 0x666c7434

/-- One node of the flat block list (`struct node`): the fourcc key, the
32-bit payload size, and the payload bytes. -/
structure RNode where
  key : ℕ
  size : ℕ
  data : List ℕ
deriving DecidableEq, Repr

/-- The cross-block context (`struct config`), restricted to the fields the
sample-array codec consults. -/
structure Config where
  bin_format : ℕ
  bin_type : ℕ
deriving DecidableEq, Repr

/-- The function `superblock`: is the key one of the four container keys. -/
def superblock (key : ℕ) : Bool :=
  key == KEY_AQFT || key == KEY_HEAD || key == KEY_BODY || key == KEY_END

/-- The keys of `Global_function_dictionary`, in declaration order. -/
def Global_function_dictionary : List ℕ :=
  [KEY_AQFT, KEY_HEAD, KEY_sign, KEY_mcda, KEY_dbrf, KEY_cnst, KEY_hasi, KEY_swep,
   KEY_fbin, KEY_BODY, KEY_rtag, KEY_gps1, KEY_indx, KEY_scal, KEY_afft, KEY_ifft, KEY_END]

/-- The function `find_block_functions`: reject a zero key, then scan the
dictionary; `none` models the NULL return ("Cannot locate functions"). -/
def find_block_functions (key : ℕ) : Option ℕ :=
  if key = 0 then none else Global_function_dictionary.find? (fun k => k == key)

/-- Read a big-endian 32-bit value from the start of a byte buffer, as the
pair `endian_fixup` + load does on a little-endian host (bytes beyond the
allocation read as zero). -/
def be32 (l : List ℕ) : ℕ :=
  (l.getD 0 0 % 256) * 16777216 + (l.getD 1 0 % 256) * 65536 +
    (l.getD 2 0 % 256) * 256 + l.getD 3 0 % 256

/-- Write a 32-bit value as four big-endian bytes (`endian_fixup` +
`fwrite`). -/
def be32enc (v : ℕ) : List ℕ :=
  [v / 16777216 % 256, v / 65536 % 256, v / 256 % 256, v % 256]

/-- Unsigned 64-bit subtraction with wraparound, as on the `unsigned long`
length counter of `parse_block`. -/
def sub64 (a b : ℕ) : ℕ := (a + (W64 - b % W64)) % W64

/-- The `size` bytes of memory starting at a given buffer position: the
bytes of the allocation that are left, zero beyond its end. -/
def padTake (n : ℕ) (l : List ℕ) : List ℕ := (l ++ List.replicate n 0).take n

/-- The recursive RIFF block parser `parse_block`, over the memory from the
current buffer position onward and the remaining `length` counter.  One
loop iteration or recursion level consumes one unit of fuel; the result
carries the parsed nodes (in spliced list order) and the number of
"size truncated" diagnostics emitted.  A failing leaf fixup is ignored by
the C code ("continue on error"), so leaf payloads are kept as raw bytes
and registry lookups cannot fail the parse. -/
def parseBlock : ℕ → List ℕ → ℕ → Option (List RNode × ℕ)
  | 0, _, _ => none
  | fuel + 1, buf, len =>
    if len = 0 then some ([], 0)
    else
      let key := be32 buf
      let size0 := be32 (buf.drop 4)
      let len1 := sub64 len 8
      let buf1 := buf.drop 8
      let size := if len1 < size0 then len1 % W32 else size0
      let diag : ℕ := if len1 < size0 then 1 else 0
      let node := RNode.mk key size (padTake size buf1)
      if superblock key then
        match parseBlock fuel buf1 size with
        | none => none
        | some (children, d1) =>
          match parseBlock fuel (buf1.drop size) (sub64 len1 size) with
          | none => none
          | some (rest, d2) => some (node :: (children ++ rest), diag + d1 + d2)
      else
        match parseBlock fuel (buf1.drop size) (sub64 len1 size) with
        | none => none
        | some (rest, d2) => some (node :: rest, diag + d2)

/-- The flag update of `calculate_head_size` performed before the size is
accumulated: an END or BODY key closes the head region. -/
def head_step_add (b : Bool) (n : RNode) : Bool :=
  if n.key = KEY_END then false else if n.key = KEY_BODY then false else b

/-- The complete per-node flag update of `calculate_head_size`: after the
accumulation, a HEAD key opens the head region. -/
def head_step (b : Bool) (n : RNode) : Bool :=
  if n.key = KEY_HEAD then true else head_step_add b n

/-- The scan loop of `calculate_head_size`, accumulating `size + 8` for
each node seen while the head flag is set. -/
def calcHeadAux : Bool → List RNode → ℕ
  | _, [] => 0
  | b, n :: rest =>
    (if head_step_add b n then n.size + 8 else 0) + calcHeadAux (head_step b n) rest

/-- The function `calculate_head_size`; the uint32_t accumulator makes the
result the sum reduced modulo 2^32. -/
def calculate_head_size (l : List RNode) : ℕ := calcHeadAux false l % W32

/-- The flag update of `calculate_body_size` performed before the size is
accumulated: an END key closes the body region (a HEAD key does not). -/
def body_step_add (b : Bool) (n : RNode) : Bool :=
  if n.key = KEY_END then false else b

/-- The complete per-node flag update of `calculate_body_size`: after the
accumulation, a BODY key opens the body region. -/
def body_step (b : Bool) (n : RNode) : Bool :=
  if n.key = KEY_BODY then true else body_step_add b n

/-- The scan loop of `calculate_body_size`. -/
def calcBodyAux : Bool → List RNode → ℕ
  | _, [] => 0
  | b, n :: rest =>
    (if body_step_add b n then n.size + 8 else 0) + calcBodyAux (body_step b n) rest

/-- The function `calculate_body_size`, reduced modulo 2^32 as uint32_t. -/
def calculate_body_size (l : List RNode) : ℕ := calcBodyAux false l % W32

/-- The head-region flag state after scanning a list of nodes. -/
def head_flag (b : Bool) (l : List RNode) : Bool := l.foldl head_step b

/-- The body-region flag state after scanning a list of nodes. -/
def body_flag (b : Bool) (l : List RNode) : Bool := l.foldl body_step b

/-- The function `set_block_size`: overwrite the size of the first node
carrying the given key; `none` models the failure return. -/
def set_block_size : List RNode → ℕ → ℕ → Option (List RNode)
  | [], _, _ => none
  | n :: rest, key, size =>
    if n.key = key then some (RNode.mk n.key size n.data :: rest)
    else (set_block_size rest key size).map (fun l => n :: l)

/-- The function `fixup_sizes`.  It mutates the list in place and returns
an error int; the model returns the error flag together with the list as
left by the call, because `rsgen` keeps using that list even when the
error flag is set. -/
def fixup_sizes (l : List RNode) : Bool × List RNode :=
  let head_size := calculate_head_size l
  if head_size = 0 then (true, l)
  else
    let body_size := calculate_body_size l
    if body_size = 0 then (true, l)
    else
      let aqft_size := (head_size + 8 + body_size + 8) % W32
      match set_block_size l KEY_AQFT aqft_size with
      | none => (true, l)
      | some l1 =>
        match set_block_size l1 KEY_HEAD head_size with
        | none => (true, l1)
        | some l2 =>
          match set_block_size l2 KEY_BODY body_size with
          | none => (true, l2)
          | some l3 => (false, l3)

/-- The size field of the first node with the given key. -/
def first_size : List RNode → ℕ → Option ℕ
  | [], _ => none
  | n :: rest, key => if n.key = key then some n.size else first_size rest key

/-- Sum of `byte_size + header_size` over a run of blocks. -/
def sum_sizes (l : List RNode) : ℕ := (l.map (fun n => n.size + 8)).sum

/-- A node whose key is none of the head, body and terminator sentinel
keys. -/
def nonSentinel (n : RNode) : Bool :=
  !(n.key == KEY_HEAD) && !(n.key == KEY_BODY) && !(n.key == KEY_END)

/-- Modelled from the spec wording of the body-size rule, for comparison
with `calculate_body_size`: the sum of `byte_size + 8` over exactly the
blocks strictly after the body sentinel and strictly before the
terminator sentinel, with sentinel blocks contributing nothing. -/
def spec_body_size (l : List RNode) : ℕ :=
  sum_sizes ((((l.dropWhile (fun n => !(n.key == KEY_BODY))).drop 1).takeWhile
    (fun n => !(n.key == KEY_END))).filter nonSentinel)

/-- One `gen_block_xxxx` call: an unregistered key is a fatal error,
otherwise the 8-byte header is written followed by the payload bytes in
wire order. -/
def gen_block (n : RNode) : Option (List ℕ) :=
  match find_block_functions n.key with
  | none => none
  | some _ => some (be32enc n.key ++ be32enc n.size ++ n.data)

/-- The function `rs_write`: emit every node in list order, aborting at
the first node whose key has no registered generator. -/
def rs_write : List RNode → Option (List ℕ)
  | [] => some []
  | n :: rest =>
    match gen_block n with
    | none => none
    | some bytes => (rs_write rest).map (fun bs => bytes ++ bs)

/-- The tail of `rsgen` after the make loop: `fixup_sizes(&root)` is
called, its return value is discarded, and `rs_write` runs on the list as
the call left it. -/
def rsgen_finish (l : List RNode) : Option (List ℕ) :=
  rs_write (fixup_sizes l).2

/-- The key dispatch of the `rsgen` read loop (rs.c lines 362-369): a key
line whose fourcc has no dictionary entry aborts the run before anything
is written. -/
def rsgen_dispatch (key : ℕ) : Option Unit :=
  (find_block_functions key).map (fun _ => ())

/-- Seconds between the 1904-01-01 and 1970-01-01 epochs. -/
def EPOCH_OFFSET : ℕ := 2082844800

/-- The timestamp line of `dump_block_mcda` (and identically
`dump_block_gps1`): nothing is printed when the stored 32-bit value is
zero; otherwise the value printed with `%lu` is the stored value minus the
epoch offset, computed in 64-bit `time_t` arithmetic.  The stored node
data is only read, never written. -/
def dump_mcda_timestamp (t : ℕ) : Option ℕ :=
  if t = 0 then none else some (sub64 t EPOCH_OFFSET)

/-- The timestamp recovery of `make_node_mcda` (and identically
`make_node_gps1`): the printed decimal is scanned with `%u` into a 32-bit
field (keeping the low 32 bits) and the epoch offset is added back in
32-bit arithmetic. -/
def make_mcda_timestamp (v : ℕ) : ℕ := (v % W32 + EPOCH_OFFSET) % W32

/-- The function `count_iqdata_lines`: the number of lines before the
first blank line (or the end of the stream); the stream is rewound
afterwards. -/
def count_iqdata_lines (lines : List String) : ℕ :=
  (lines.takeWhile (fun l => !(l == ""))).length

/-- The read loop of `read_iqdata_samples`: exactly `n` lines are
consumed; a missing line, a blank line or a line the sample scanner
rejects is an error.  The scanner argument stands for the
`sscanf("%d %lf %lf")` call, whose numeric result type the claims never
inspect. -/
def read_iqdata_go {α : Type} (scan : String → Option α) : ℕ → List String → Option (List α)
  | 0, _ => some []
  | _ + 1, [] => none
  | n + 1, l :: ls =>
    if l == "" then none
    else
      match scan l with
      | none => none
      | some s => (read_iqdata_go scan n ls).map (fun r => s :: r)

/-- The function `read_iqdata_samples`: the shared config must declare the
`cviq` binary format and the `flt4` type, then the lines are scanned. -/
def read_iqdata_samples {α : Type} (scan : String → Option α) (cfg : Config)
    (n : ℕ) (lines : List String) : Option (List α) :=
  if cfg.bin_format ≠ BINFORMAT_CVIQ then none
  else if cfg.bin_type ≠ BINTYPE_FLT4 then none
  else read_iqdata_go scan n lines

/-- The function `make_node_afft` (and identically `make_node_ifft`),
starting after the type-code line: count the lines up to the blank line,
fail on a zero count, fail on a count that is not a multiple of 3, then
read the samples; on success the node's size is `count * 8` (the
hardcoded `sizeof(struct block_iqdata_float)`). -/
def make_node_afft {α : Type} (scan : String → Option α) (cfg : Config)
    (lines : List String) : Option (ℕ × List α) :=
  let afft_lines := count_iqdata_lines lines
  if afft_lines = 0 then none
  else if afft_lines % 3 ≠ 0 then none
  else (read_iqdata_samples scan cfg afft_lines lines).map (fun s => (afft_lines * 8, s))

/-- Possible outcomes of `read_parameter`: a blank line reached before a
match is the error return; the end of the stream leaves the error flag
clear with the destination untouched; a matching line yields its value. -/
inductive ReadResult (α : Type) where
  | err : ReadResult α
  | unset : ReadResult α
  | found : α → ReadResult α
deriving DecidableEq

/-- The function `read_parameter`, over the record's lines from the saved
record-start position (the C code rewinds the stream to that position
after every call, so each field lookup sees the same lines).  The matcher
argument stands for the `sscanf(line, format, ...)` call: `none` models a
zero conversion count (skip the line), `some v` models a nonzero count
(stop with this line's value). -/
def read_parameter {α : Type} (m : String → Option α) : List String → ReadResult α
  | [] => .unset
  | l :: ls =>
    if l == "" then .err
    else
      match m l with
      | some v => .found v
      | none => read_parameter m ls

/-- The field-reading sequence of a fixed-layout `make_node_xxxx` function
(such as `make_node_sign`): each field is looked up with `read_parameter`
from the same record start; the record fails on the first field whose
lookup hit a blank line, and a field left unset keeps its zeroed default,
here surfaced as `none`. -/
def parse_record {α : Type} : List (String → Option α) → List String → Option (List (Option α))
  | [], _ => some []
  | f :: fs, lines =>
    match read_parameter f lines with
    | .err => none
    | .unset => (parse_record fs lines).map (fun r => none :: r)
    | .found v => (parse_record fs lines).map (fun r => some v :: r)

/-- The payload size `parse_block` assigns to a block at a state with at
least a full header remaining: the declared size, clamped to the bytes
that remain after the header. -/
def clamp_size (buf : List ℕ) (len : ℕ) : ℕ :=
  min (be32 (buf.drop 4)) (len - 8)

/-- The block runs on which `parse_block`'s length counter never takes a
nonzero value below the 8-byte header size, at the top level or inside
any container: every step sees a whole header, and payloads are consumed
exactly. -/
inductive Consumes : List ℕ → ℕ → Prop where
  | nil : ∀ buf, Consumes buf 0
  | step : ∀ buf len, 8 ≤ len → len < W64 →
      (superblock (be32 buf) = true → Consumes (buf.drop 8) (clamp_size buf len)) →
      Consumes ((buf.drop 8).drop (clamp_size buf len)) (len - 8 - clamp_size buf len) →
      Consumes buf len

/-- A flat list as `rsgen` builds it from a text file with records AQFT,
HEAD, two head leaves, BODY, two body leaves and END: head region
16 bytes, body region 24 bytes. -/
def lC2 : List RNode :=
  [RNode.mk KEY_AQFT 0 [], RNode.mk KEY_HEAD 0 [],
   RNode.mk KEY_sign 0 [], RNode.mk KEY_mcda 0 [],
   RNode.mk KEY_BODY 0 [], RNode.mk KEY_dbrf 0 [],
   RNode.mk KEY_cnst 8 [], RNode.mk KEY_END 0 []]

/-- A flat list as `rsgen` builds it from a text file whose records are
AQFT, HEAD, an mcda leaf and END — the BODY sentinel is absent. -/
def lC4 : List RNode :=
  [RNode.mk KEY_AQFT 0 [], RNode.mk KEY_HEAD 0 [],
   RNode.mk KEY_mcda 4 [0, 0, 0, 0], RNode.mk KEY_END 0 []]

/-- A flat list on which the body-size scan disagrees with the spec's
region description: BODY, then a HEAD block, then END. -/
def lC3 : List RNode :=
  [RNode.mk KEY_BODY 0 [], RNode.mk KEY_HEAD 0 [], RNode.mk KEY_END 0 []]

/-- A 10-byte buffer whose single block declares 5 payload bytes while
only 2 remain after the header. -/
def bufC5 : List ℕ := be32enc KEY_sign ++ ([0, 0, 0, 5] ++ [0xAA, 0xBB])

/-- A 16-byte buffer: an AQFT container of size 8 holding one block whose
fourcc "xxxx" has no dictionary entry. -/
def bufC7 : List ℕ :=
  be32enc KEY_AQFT ++ (be32enc 8 ++ (be32enc 0x78787878 ++ be32enc 0))

/-- The list produced for the witness of the canonical size computation:
AQFT, HEAD, a 4-byte head leaf, BODY, a 4-byte and a 0-byte body leaf,
END. -/
def lC3W : List RNode :=
  [RNode.mk KEY_AQFT 0 []] ++ RNode.mk KEY_HEAD 0 [] ::
    ([RNode.mk KEY_mcda 4 []] ++ RNode.mk KEY_BODY 0 [] ::
      ([RNode.mk KEY_indx 4 [], RNode.mk KEY_rtag 0 []] ++ RNode.mk KEY_END 0 [] :: []))

/-- A 13-byte buffer whose final (and only) block is a BODY container
declaring 100 payload bytes while only 5 bytes remain after its header. -/
def bufC5b : List ℕ := be32enc KEY_BODY ++ (be32enc 100 ++ [0, 0, 0, 0, 0])

/-- A field matcher for the `sitecode:%4c` lookup of `make_node_sign`,
specialised to one concrete record line for the permutation witness. -/
def fieldA : String → Option ℕ :=
  fun l => if l == "sitecode:ABCD" then some 1 else none

/-- A field matcher for the `userflags:%x` lookup of `make_node_sign`,
specialised to one concrete record line for the permutation witness. -/
def fieldB : String → Option ℕ :=
  fun l => if l == "userflags:2f" then some 47 else none

theorem set_block_size_first (l : List RNode) (k s : ℕ) (l' : List RNode)
    (h : set_block_size l k s = some l') : first_size l' k = some s := by
  induction l generalizing l' with
  | nil => simp [set_block_size] at h
  | cons n rest ih =>
    by_cases hk : n.key = k
    · simp only [set_block_size, if_pos hk, Option.some.injEq] at h
      subst h
      simp [first_size, hk]
    · simp only [set_block_size, if_neg hk, Option.map_eq_some'] at h
      obtain ⟨rest', hr, hl⟩ := h
      subst hl
      simpa [first_size, hk] using ih rest' hr

theorem set_block_size_other (l : List RNode) (k s k' : ℕ) (l' : List RNode)
    (h : set_block_size l k s = some l') (hne : k' ≠ k) :
    first_size l' k' = first_size l k' := by
  induction l generalizing l' with
  | nil => simp [set_block_size] at h
  | cons n rest ih =>
    by_cases hk : n.key = k
    · simp only [set_block_size, if_pos hk, Option.some.injEq] at h
      subst h
      have hk' : n.key ≠ k' := by
        rw [hk]
        exact fun e => hne e.symm
      simp [first_size, hk']
    · simp only [set_block_size, if_neg hk, Option.map_eq_some'] at h
      obtain ⟨rest', hr, hl⟩ := h
      subst hl
      by_cases hk2 : n.key = k'
      · simp [first_size, hk2]
      · simpa [first_size, hk2] using ih rest' hr

/-- C2: when the size reconciler succeeds, the size it leaves on the root
AQFT block is exactly `head_size + 8 + body_size + 8` (in 32-bit
arithmetic), the two region sums plus two block headers, with nothing of
the terminator block counted. -/
theorem fixup_sizes_root_formula (l : List RNode)
    (h : (fixup_sizes l).1 = false) :
    first_size (fixup_sizes l).2 KEY_AQFT =
      some ((calculate_head_size l + 8 + calculate_body_size l + 8) % W32) := by
  unfold fixup_sizes at h ⊢
  by_cases h1 : calculate_head_size l = 0
  · simp [h1] at h
  by_cases h2 : calculate_body_size l = 0
  · simp [h1, h2] at h
  rcases hA : set_block_size l KEY_AQFT
      ((calculate_head_size l + 8 + calculate_body_size l + 8) % W32) with _ | l1
  · simp [h1, h2, hA] at h
  rcases hH : set_block_size l1 KEY_HEAD (calculate_head_size l) with _ | l2
  · simp [h1, h2, hA, hH] at h
  rcases hB : set_block_size l2 KEY_BODY (calculate_body_size l) with _ | l3
  · simp [h1, h2, hA, hH, hB] at h
  · simp only [h1, h2, hA, hH, hB, if_false]
    have e3 := set_block_size_other l2 KEY_BODY (calculate_body_size l) KEY_AQFT l3 hB
      (by decide)
    have e2 := set_block_size_other l1 KEY_HEAD (calculate_head_size l) KEY_AQFT l2 hH
      (by decide)
    have e1 := set_block_size_first l KEY_AQFT
      ((calculate_head_size l + 8 + calculate_body_size l + 8) % W32) l1 hA
    simpa [e3, e2] using e1

/-- Witness for `fixup_sizes_root_formula`: with head region 16 and body
region 24 the root size written is 56. -/
theorem fixup_sizes_root_formula_witness :
    (fixup_sizes lC2).1 = false ∧
      first_size (fixup_sizes lC2).2 KEY_AQFT = some 56 := by
  refine ⟨by decide, ?_⟩
  rw [fixup_sizes_root_formula lC2 (by decide)]
  decide

theorem calcHeadAux_append (b : Bool) (xs ys : List RNode) :
    calcHeadAux b (xs ++ ys) = calcHeadAux b xs + calcHeadAux (head_flag b xs) ys := by
  induction xs generalizing b with
  | nil => simp [calcHeadAux, head_flag]
  | cons n rest ih => simp [calcHeadAux, head_flag, ih, Nat.add_assoc]

theorem calcBodyAux_append (b : Bool) (xs ys : List RNode) :
    calcBodyAux b (xs ++ ys) = calcBodyAux b xs + calcBodyAux (body_flag b xs) ys := by
  induction xs generalizing b with
  | nil => simp [calcBodyAux, body_flag]
  | cons n rest ih => simp [calcBodyAux, body_flag, ih, Nat.add_assoc]

theorem nonSentinel_keys (n : RNode) (hn : nonSentinel n = true) :
    n.key ≠ KEY_HEAD ∧ n.key ≠ KEY_BODY ∧ n.key ≠ KEY_END := by
  simpa [nonSentinel, and_assoc] using hn

theorem head_calc_nosent (xs : List RNode) (hx : ∀ n ∈ xs, nonSentinel n = true) :
    (∀ b, head_flag b xs = b) ∧
      calcHeadAux true xs = sum_sizes xs ∧ calcHeadAux false xs = 0 := by
  induction xs with
  | nil => simp [head_flag, calcHeadAux, sum_sizes]
  | cons n rest ih =>
    obtain ⟨h1, h2, h3⟩ := nonSentinel_keys n (hx n (by simp))
    have ih' := ih (fun m hm => hx m (by simp [hm]))
    have hstepadd : ∀ b, head_step_add b n = b := by
      intro b
      simp [head_step_add, h2, h3]
    have hstep : ∀ b, head_step b n = b := by
      intro b
      simp [head_step, h1, hstepadd]
    refine ⟨?_, ?_, ?_⟩
    · intro b
      simp [head_flag, hstep]
      simpa [head_flag] using ih'.1 b
    · simp [calcHeadAux, hstepadd, hstep, ih'.2.1, sum_sizes, Nat.add_comm]
    · simp [calcHeadAux, hstepadd, hstep, ih'.2.2]

theorem body_calc_nosent (xs : List RNode) (hx : ∀ n ∈ xs, nonSentinel n = true) :
    (∀ b, body_flag b xs = b) ∧
      calcBodyAux true xs = sum_sizes xs ∧ calcBodyAux false xs = 0 := by
  induction xs with
  | nil => simp [body_flag, calcBodyAux, sum_sizes]
  | cons n rest ih =>
    obtain ⟨h1, h2, h3⟩ := nonSentinel_keys n (hx n (by simp))
    have ih' := ih (fun m hm => hx m (by simp [hm]))
    have hstepadd : ∀ b, body_step_add b n = b := by
      intro b
      simp [body_step_add, h3]
    have hstep : ∀ b, body_step b n = b := by
      intro b
      simp [body_step, h2, hstepadd]
    refine ⟨?_, ?_, ?_⟩
    · intro b
      simp [body_flag, hstep]
      simpa [body_flag] using ih'.1 b
    · simp [calcBodyAux, hstepadd, hstep, ih'.2.1, sum_sizes, Nat.add_comm]
    · simp [calcBodyAux, hstepadd, hstep, ih'.2.2]

/-- C3 (amended): for a flat sequence in canonical sentinel order — any
non-sentinel prefix, then HEAD, a head region, BODY, a body region, END
and a non-sentinel tail, with no sentinel key inside the regions — the
reconciler's head size is the sum of `byte_size + 8` over exactly the head
region and its body size the same sum over the body region, reduced
modulo 2^32. -/
theorem calc_sizes_canonical (p hs bs post : List RNode) (hd bd en : RNode)
    (hhd : hd.key = KEY_HEAD) (hbd : bd.key = KEY_BODY) (hen : en.key = KEY_END)
    (hp : ∀ n ∈ p, nonSentinel n = true) (hhs : ∀ n ∈ hs, nonSentinel n = true)
    (hbs : ∀ n ∈ bs, nonSentinel n = true) (hpost : ∀ n ∈ post, nonSentinel n = true) :
    calculate_head_size (p ++ hd :: (hs ++ bd :: (bs ++ en :: post))) =
        sum_sizes hs % W32 ∧
      calculate_body_size (p ++ hd :: (hs ++ bd :: (bs ++ en :: post))) =
        sum_sizes bs % W32 := by
  have hBD_ne_END : KEY_BODY ≠ KEY_END := by decide
  have hBD_ne_HEAD : KEY_BODY ≠ KEY_HEAD := by decide
  have hHD_ne_END : KEY_HEAD ≠ KEY_END := by decide
  have hHD_ne_BODY : KEY_HEAD ≠ KEY_BODY := by decide
  have hEN_ne_HEAD : KEY_END ≠ KEY_HEAD := by decide
  have hEN_ne_BODY : KEY_END ≠ KEY_BODY := by decide
  constructor
  · unfold calculate_head_size
    rw [calcHeadAux_append]
    rw [(head_calc_nosent p hp).2.2, (head_calc_nosent p hp).1 false]
    have stepadd_hd : head_step_add false hd = false := by
      simp [head_step_add]
    have step_hd : head_step false hd = true := by
      simp [head_step, hhd]
    simp only [calcHeadAux, stepadd_hd, step_hd, if_false, Bool.false_eq_true,
      Nat.zero_add]
    rw [calcHeadAux_append]
    rw [(head_calc_nosent hs hhs).2.1, (head_calc_nosent hs hhs).1 true]
    have stepadd_bd : head_step_add true bd = false := by
      simp [head_step_add, hbd, hBD_ne_END]
    have step_bd : head_step true bd = false := by
      simp [head_step, hbd, hBD_ne_HEAD, stepadd_bd]
    simp only [calcHeadAux, stepadd_bd, step_bd, if_false, Bool.false_eq_true,
      Nat.add_zero, Nat.zero_add]
    rw [calcHeadAux_append]
    rw [(head_calc_nosent bs hbs).2.2, (head_calc_nosent bs hbs).1 false]
    have stepadd_en : head_step_add false en = false := by
      simp [head_step_add]
    have step_en : head_step false en = false := by
      simp [head_step, hen, hEN_ne_HEAD, stepadd_en]
    simp only [calcHeadAux, stepadd_en, step_en, if_false, Bool.false_eq_true,
      Nat.add_zero, Nat.zero_add]
    rw [(head_calc_nosent post hpost).2.2, Nat.add_zero]
  · unfold calculate_body_size
    rw [calcBodyAux_append]
    rw [(body_calc_nosent p hp).2.2, (body_calc_nosent p hp).1 false]
    have stepadd_hd : body_step_add false hd = false := by
      simp [body_step_add]
    have step_hd : body_step false hd = false := by
      simp [body_step, hhd, hHD_ne_BODY, stepadd_hd]
    simp only [calcBodyAux, stepadd_hd, step_hd, if_false, Bool.false_eq_true,
      Nat.zero_add]
    rw [calcBodyAux_append]
    rw [(body_calc_nosent hs hhs).2.2, (body_calc_nosent hs hhs).1 false]
    have stepadd_bd : body_step_add false bd = false := by
      simp [body_step_add]
    have step_bd : body_step false bd = true := by
      simp [body_step, hbd]
    simp only [calcBodyAux, stepadd_bd, step_bd, if_false, Bool.false_eq_true,
      Nat.add_zero, Nat.zero_add]
    rw [calcBodyAux_append]
    rw [(body_calc_nosent bs hbs).2.1, (body_calc_nosent bs hbs).1 true]
    have stepadd_en : body_step_add true en = false := by
      simp [body_step_add, hen]
    have step_en : body_step true en = false := by
      simp [body_step, hen, hEN_ne_BODY, stepadd_en]
    simp only [calcBodyAux, stepadd_en, step_en, if_false, Bool.false_eq_true,
      Nat.add_zero, Nat.zero_add]
    rw [(body_calc_nosent post hpost).2.2, Nat.add_zero]

/-- C3 counterexample: on the sequence BODY, HEAD, END the body-size scan
counts the HEAD sentinel block's header (8 bytes), while the claim's
region description — only non-sentinel blocks strictly between the body
and terminator sentinels — yields 0. -/
theorem calc_body_size_spec_mismatch :
    calculate_body_size lC3 = 8 ∧ spec_body_size lC3 = 0 ∧
      calculate_body_size lC3 ≠ spec_body_size lC3 := by decide

/-- Witness for `calc_sizes_canonical`: a canonical sequence with head
region 12 bytes and body region 20 bytes. -/
theorem calc_sizes_canonical_witness :
    calculate_head_size lC3W = 12 ∧ calculate_body_size lC3W = 20 := by
  have h := calc_sizes_canonical [RNode.mk KEY_AQFT 0 []] [RNode.mk KEY_mcda 4 []]
    [RNode.mk KEY_indx 4 [], RNode.mk KEY_rtag 0 []] []
    (RNode.mk KEY_HEAD 0 []) (RNode.mk KEY_BODY 0 []) (RNode.mk KEY_END 0 [])
    (by decide) (by decide) (by decide) (by decide) (by decide) (by decide)
    (by decide)
  refine ⟨?_, ?_⟩
  · rw [show lC3W = [RNode.mk KEY_AQFT 0 []] ++ RNode.mk KEY_HEAD 0 [] ::
      ([RNode.mk KEY_mcda 4 []] ++ RNode.mk KEY_BODY 0 [] ::
        ([RNode.mk KEY_indx 4 [], RNode.mk KEY_rtag 0 []] ++
          RNode.mk KEY_END 0 [] :: [])) from rfl, h.1]
    decide
  · rw [show lC3W = [RNode.mk KEY_AQFT 0 []] ++ RNode.mk KEY_HEAD 0 [] ::
      ([RNode.mk KEY_mcda 4 []] ++ RNode.mk KEY_BODY 0 [] ::
        ([RNode.mk KEY_indx 4 [], RNode.mk KEY_rtag 0 []] ++
          RNode.mk KEY_END 0 [] :: [])) from rfl, h.2]
    decide

/-- C4: on a parsed sequence with no BODY sentinel the reconciler reports
failure, yet the `rsgen` tail discards that error code and `rs_write`
still emits the complete 36-byte binary output. -/
theorem rsgen_writes_despite_reconcile_error :
    (fixup_sizes lC4).1 = true ∧
      (rsgen_finish lC4).isSome = true ∧
      ((rsgen_finish lC4).getD []).length = 36 := by decide

theorem sub64_eq_sub (a b : ℕ) (hb : b ≤ a) (ha : a < W64) : sub64 a b = a - b := by
  unfold sub64 W64 at *
  omega

theorem sub64_zero (a : ℕ) (ha : a < W64) : sub64 a 0 = a := by
  unfold sub64 W64 at *
  omega

theorem sub64_lt (a b : ℕ) : sub64 a b < W64 := by
  unfold sub64 W64
  omega

theorem be32_lt (l : List ℕ) : be32 l < W32 := by
  unfold be32 W32
  have h0 : l.getD 0 0 % 256 < 256 := Nat.mod_lt _ (by norm_num)
  have h1 : l.getD 1 0 % 256 < 256 := Nat.mod_lt _ (by norm_num)
  have h2 : l.getD 2 0 % 256 < 256 := Nat.mod_lt _ (by norm_num)
  have h3 : l.getD 3 0 % 256 < 256 := Nat.mod_lt _ (by norm_num)
  omega

theorem be32_be32enc (v : ℕ) (hv : v < W32) (rest : List ℕ) :
    be32 (be32enc v ++ rest) = v := by
  unfold be32 be32enc W32 at *
  simp only [List.cons_append, List.nil_append, List.getD_cons_zero,
    List.getD_cons_succ]
  omega

theorem parseBlock_mono (f : ℕ) : ∀ (f' : ℕ) (buf : List ℕ) (len : ℕ)
    (out : List RNode × ℕ), parseBlock f buf len = some out → f ≤ f' →
    parseBlock f' buf len = some out := by
  induction f with
  | zero =>
    intro f' buf len out h
    simp [parseBlock] at h
  | succ n ih =>
    intro f' buf len out h hle
    obtain ⟨m, rfl⟩ : ∃ m, f' = m + 1 := ⟨f' - 1, by omega⟩
    have hnm : n ≤ m := by omega
    by_cases hlen : len = 0
    · subst hlen
      simpa [parseBlock] using h
    · simp only [parseBlock, if_neg hlen] at h ⊢
      cases hsb : superblock (be32 buf) with
      | true =>
        simp only [hsb, if_true] at h ⊢
        rcases hc : parseBlock n (buf.drop 8)
            (if sub64 len 8 < be32 (buf.drop 4) then sub64 len 8 % W32
              else be32 (buf.drop 4)) with _ | co
        · rw [hc] at h
          exact absurd h (by simp)
        · rw [hc] at h
          rw [ih m _ _ co hc hnm]
          rcases hr : parseBlock n
              ((buf.drop 8).drop (if sub64 len 8 < be32 (buf.drop 4) then
                sub64 len 8 % W32 else be32 (buf.drop 4)))
              (sub64 (sub64 len 8) (if sub64 len 8 < be32 (buf.drop 4) then
                sub64 len 8 % W32 else be32 (buf.drop 4))) with _ | ro
          · rw [hr] at h
            exact absurd h (by simp)
          · rw [hr] at h
            rw [ih m _ _ ro hr hnm]
            exact h
      | false =>
        simp only [hsb, Bool.false_eq_true, if_false] at h ⊢
        rcases hr : parseBlock n
            ((buf.drop 8).drop (if sub64 len 8 < be32 (buf.drop 4) then
              sub64 len 8 % W32 else be32 (buf.drop 4)))
            (sub64 (sub64 len 8) (if sub64 len 8 < be32 (buf.drop 4) then
              sub64 len 8 % W32 else be32 (buf.drop 4))) with _ | ro
        · rw [hr] at h
          exact absurd h (by simp)
        · rw [hr] at h
          rw [ih m _ _ ro hr hnm]
          exact h

theorem model_size_eq_clamp (buf : List ℕ) (len : ℕ) (h8 : 8 ≤ len) (hW : len < W64) :
    (if sub64 len 8 < be32 (buf.drop 4) then sub64 len 8 % W32 else be32 (buf.drop 4)) =
      clamp_size buf len := by
  rw [sub64_eq_sub len 8 (by omega) hW]
  unfold clamp_size
  by_cases hc : len - 8 < be32 (buf.drop 4)
  · rw [if_pos hc, Nat.mod_eq_of_lt (lt_trans hc (be32_lt _)),
      Nat.min_eq_right (Nat.le_of_lt hc)]
  · rw [if_neg hc, Nat.min_eq_left (Nat.le_of_not_lt hc)]

/-- C5 (amended): at any parse state with a whole 8-byte header remaining
whose block carries a leaf (non-container) key and declares a payload
size exceeding the bytes left after the header, the decoder produces a
single block whose payload length is exactly the remaining count
`len - 8`, emits one truncation diagnostic, and terminates cleanly; and
when the length counter is within the buffer, the payload bytes are
exactly the in-bounds slice of the buffer — nothing is read past its
end.  (For a container-keyed truncated final block the size is clamped
the same way, but the decoder then recurses into the truncated region
and need not terminate — see the counterexample.) -/
theorem parse_truncation_clamps (buf : List ℕ) (len fuel : ℕ)
    (h8 : 8 ≤ len) (hW : len < W64) (hdecl : len - 8 < be32 (buf.drop 4))
    (hsb : superblock (be32 buf) = false) (hfuel : 2 ≤ fuel) :
    parseBlock fuel buf len =
        some ([RNode.mk (be32 buf) (len - 8) (padTake (len - 8) (buf.drop 8))], 1) ∧
      (len ≤ buf.length →
        padTake (len - 8) (buf.drop 8) = (buf.drop 8).take (len - 8)) := by
  constructor
  · obtain ⟨k, rfl⟩ : ∃ k, fuel = k + 2 := ⟨fuel - 2, by omega⟩
    have hlen : len ≠ 0 := by omega
    have hsz := model_size_eq_clamp buf len h8 hW
    have hclamp : clamp_size buf len = len - 8 := by
      unfold clamp_size
      exact Nat.min_eq_right (Nat.le_of_lt hdecl)
    have hsub : sub64 len 8 = len - 8 := sub64_eq_sub len 8 (by omega) hW
    simp only [parseBlock, if_neg hlen, hsb, Bool.false_eq_true, if_false,
      hsz, hclamp]
    have hrest : sub64 (sub64 len 8) (len - 8) = 0 := by
      rw [hsub, sub64_eq_sub _ _ (Nat.le_refl _) (by omega)]
      omega
    rw [hrest]
    have hdiag : (sub64 len 8 < be32 (buf.drop 4)) = True := by
      rw [hsub]
      simp [hdecl]
    simp [parseBlock, hdiag]
  · intro hbuf
    unfold padTake
    rw [List.take_append_of_le_length]
    simp only [List.length_drop]
    omega

/-- Witness for `parse_truncation_clamps`: a 10-byte buffer whose single
block declares 5 payload bytes with only 2 left; the decoded block keeps
payload [0xAA, 0xBB] of length 2 and one diagnostic is emitted. -/
theorem parse_truncation_clamps_witness :
    (8 ≤ 10 ∧ (10 : ℕ) < W64 ∧ (10 : ℕ) - 8 < be32 (bufC5.drop 4) ∧
        superblock (be32 bufC5) = false) ∧
      parseBlock 2 bufC5 10 = some ([RNode.mk KEY_sign 2 [0xAA, 0xBB]], 1) := by
  refine ⟨by refine ⟨by norm_num, by decide, by decide, by decide⟩, ?_⟩
  rw [(parse_truncation_clamps bufC5 10 2 (by norm_num) (by decide) (by decide)
    (by decide) (by norm_num)).1]
  decide

theorem parse_wrap_cycle (fuel : ℕ) : ∀ len, len % 8 = 5 → len < W64 →
    parseBlock fuel [] len = none := by
  induction fuel with
  | zero =>
    intro len h5 hW
    rfl
  | succ n ih =>
    intro len h5 hW
    have hlen : len ≠ 0 := by omega
    have hkey : be32 ([] : List ℕ) = 0 := rfl
    have hlen1 : sub64 len 8 % 8 = 5 := by
      unfold sub64 W64 at *
      omega
    have hlt1 : sub64 len 8 < W64 := sub64_lt len 8
    have hsup : superblock 0 = false := by decide
    simp only [parseBlock, if_neg hlen, List.drop_nil, hkey,
      if_neg (Nat.not_lt_zero (sub64 len 8)), hsup, Bool.false_eq_true, if_false]
    rw [sub64_zero _ hlt1, ih (sub64 len 8) hlen1 hlt1]

/-- C10 counterexample: on a 5-byte buffer (remaining length 5, memory
beyond the allocation zero) the decoder never terminates: the unsigned
length counter wraps past zero, stays congruent to 5 modulo 8, and the
loop runs out of any amount of fuel. -/
theorem parse_wrap_diverges : ¬ ∃ fuel out, parseBlock fuel [] 5 = some out := by
  rintro ⟨fuel, out, h⟩
  rw [parse_wrap_cycle fuel 5 (by norm_num) (by decide)] at h
  exact Option.noConfusion h

/-- C10 (amended): the decoder terminates on every finite buffer whose
block run always leaves either nothing or at least a whole 8-byte header
remaining, at the top level and inside every container. -/
theorem parse_terminates_of_consumes (buf : List ℕ) (len : ℕ) (h : Consumes buf len) :
    ∃ fuel out, parseBlock fuel buf len = some out := by
  induction h with
  | nil b =>
    exact ⟨1, ([], 0), by simp [parseBlock]⟩
  | step buf len h8 hW hsup hrest ihsup ihrest =>
    obtain ⟨f2, o2, h2⟩ := ihrest
    have hlen : len ≠ 0 := by omega
    have hsz := model_size_eq_clamp buf len h8 hW
    have hclamp_le : clamp_size buf len ≤ len - 8 := Nat.min_le_right _ _
    have hrlen : sub64 (sub64 len 8) (clamp_size buf len) = len - 8 - clamp_size buf len := by
      rw [sub64_eq_sub len 8 (by omega) hW, sub64_eq_sub _ _ hclamp_le (by omega)]
    cases hsb : superblock (be32 buf) with
    | false =>
      refine ⟨f2 + 1,
        (RNode.mk (be32 buf) (clamp_size buf len)
            (padTake (clamp_size buf len) (buf.drop 8)) :: o2.1,
          (if sub64 len 8 < be32 (buf.drop 4) then 1 else 0) + o2.2), ?_⟩
      simp only [parseBlock, if_neg hlen, hsb, Bool.false_eq_true, if_false, hsz,
        hrlen]
      rw [parseBlock_mono f2 f2 _ _ o2 h2 (Nat.le_refl _)]
    | true =>
      obtain ⟨f1, o1, h1⟩ := ihsup hsb
      refine ⟨max f1 f2 + 1,
        (RNode.mk (be32 buf) (clamp_size buf len)
            (padTake (clamp_size buf len) (buf.drop 8)) :: (o1.1 ++ o2.1),
          (if sub64 len 8 < be32 (buf.drop 4) then 1 else 0) + o1.2 + o2.2), ?_⟩
      simp only [parseBlock, if_neg hlen, hsb, if_true, hsz, hrlen]
      rw [parseBlock_mono f1 (max f1 f2) _ _ o1 h1 (Nat.le_max_left _ _),
        parseBlock_mono f2 (max f1 f2) _ _ o2 h2 (Nat.le_max_right _ _)]

/-- Witness for `parse_terminates_of_consumes`: an 8-byte buffer holding a
single empty sign leaf is consumed cleanly, so some fuel suffices. -/
theorem parse_terminates_of_consumes_witness :
    ∃ fuel out, parseBlock fuel (be32enc KEY_sign ++ be32enc 0) 8 = some out := by
  apply parse_terminates_of_consumes
  have hc : clamp_size (be32enc KEY_sign ++ be32enc 0) 8 = 0 := by decide
  refine Consumes.step _ _ (by norm_num) (by decide)
    (fun hsb => absurd hsb (by decide)) ?_
  rw [hc]
  exact Consumes.nil _

theorem parseBlock_len_zero (fuel : ℕ) (buf : List ℕ) :
    parseBlock (fuel + 1) buf 0 = some ([], 0) := by
  simp [parseBlock]

theorem parseBlock_step_leaf (fuel : ℕ) (buf : List ℕ) (len : ℕ)
    (hlen : len ≠ 0) (hsb : superblock (be32 buf) = false)
    (hnc : ¬ (sub64 len 8 < be32 (buf.drop 4))) :
    parseBlock (fuel + 1) buf len =
      match parseBlock fuel ((buf.drop 8).drop (be32 (buf.drop 4)))
          (sub64 (sub64 len 8) (be32 (buf.drop 4))) with
      | none => none
      | some ro =>
        some (RNode.mk (be32 buf) (be32 (buf.drop 4))
            (padTake (be32 (buf.drop 4)) (buf.drop 8)) :: ro.1, ro.2) := by
  simp only [parseBlock, if_neg hlen, hsb, Bool.false_eq_true, if_false, if_neg hnc]
  rcases h : parseBlock fuel ((buf.drop 8).drop (be32 (buf.drop 4)))
      (sub64 (sub64 len 8) (be32 (buf.drop 4))) with _ | ro
  · rfl
  · obtain ⟨rest, d2⟩ := ro
    simp

theorem parseBlock_step_super (fuel : ℕ) (buf : List ℕ) (len : ℕ)
    (hlen : len ≠ 0) (hsb : superblock (be32 buf) = true)
    (hnc : ¬ (sub64 len 8 < be32 (buf.drop 4))) :
    parseBlock (fuel + 1) buf len =
      match parseBlock fuel (buf.drop 8) (be32 (buf.drop 4)) with
      | none => none
      | some co =>
        match parseBlock fuel ((buf.drop 8).drop (be32 (buf.drop 4)))
            (sub64 (sub64 len 8) (be32 (buf.drop 4))) with
        | none => none
        | some ro =>
          some (RNode.mk (be32 buf) (be32 (buf.drop 4))
              (padTake (be32 (buf.drop 4)) (buf.drop 8)) :: (co.1 ++ ro.1),
            co.2 + ro.2) := by
  simp only [parseBlock, if_neg hlen, hsb, if_true, if_neg hnc]
  rcases hc : parseBlock fuel (buf.drop 8) (be32 (buf.drop 4)) with _ | co
  · rfl
  · obtain ⟨children, d1⟩ := co
    rcases hr : parseBlock fuel ((buf.drop 8).drop (be32 (buf.drop 4)))
        (sub64 (sub64 len 8) (be32 (buf.drop 4))) with _ | ro
    · rfl
    · obtain ⟨rest, d2⟩ := ro
      simp

theorem parseBlock_super_children_none (fuel : ℕ) (buf : List ℕ) (len : ℕ)
    (hlen : len ≠ 0) (hsb : superblock (be32 buf) = true)
    (hchild : parseBlock fuel (buf.drop 8)
      (if sub64 len 8 < be32 (buf.drop 4) then sub64 len 8 % W32
        else be32 (buf.drop 4)) = none) :
    parseBlock (fuel + 1) buf len = none := by
  simp only [parseBlock, if_neg hlen, hsb, if_true, hchild]

theorem parse_zero5_diverges (fuel : ℕ) : parseBlock fuel [0, 0, 0, 0, 0] 5 = none := by
  cases fuel with
  | zero => rfl
  | succ n =>
    rw [parseBlock_step_leaf n _ 5 (by norm_num) (by decide) (by decide),
      show ([0, 0, 0, 0, 0] : List ℕ).drop 8 = [] from rfl,
      show be32 (([0, 0, 0, 0, 0] : List ℕ).drop 4) = 0 from rfl,
      List.drop_nil, sub64_zero _ (sub64_lt 5 8),
      parse_wrap_cycle n (sub64 5 8) (by decide) (sub64_lt 5 8)]

theorem parse_truncated_body_none (fuel : ℕ) : parseBlock fuel bufC5b 13 = none := by
  cases fuel with
  | zero => rfl
  | succ n =>
    apply parseBlock_super_children_none n bufC5b 13 (by norm_num) (by decide)
    rw [show bufC5b.drop 8 = [0, 0, 0, 0, 0] from rfl,
      show (if sub64 13 8 < be32 (bufC5b.drop 4) then sub64 13 8 % W32
        else be32 (bufC5b.drop 4)) = 5 from by decide]
    exact parse_zero5_diverges n

/-- C5 counterexample: a buffer whose final block is a BODY container
declaring 100 payload bytes with only 5 remaining after its complete
header.  The decoder clamps the size to 5 as the claim says, but then
recurses into the truncated 5-byte region, where the remaining-length
counter wraps below the 8-byte header size; decoding reads past the
buffer and never terminates, so it does not terminate cleanly. -/
theorem truncated_container_not_clean :
    ((13 : ℕ) - 8 < be32 (bufC5b.drop 4) ∧ superblock (be32 bufC5b) = true) ∧
      ¬ ∃ fuel out, parseBlock fuel bufC5b 13 = some out := by
  refine ⟨⟨by decide, by decide⟩, ?_⟩
  rintro ⟨fuel, out, h⟩
  rw [parse_truncated_body_none fuel] at h
  exact Option.noConfusion h

theorem rs_write_unknown (l₁ l₂ : List RNode) (n : RNode)
    (hk : find_block_functions n.key = none) : rs_write (l₁ ++ n :: l₂) = none := by
  induction l₁ with
  | nil => simp [rs_write, gen_block, hk]
  | cons m rest ih =>
    simp only [List.cons_append, rs_write, List.append_eq]
    cases hg : gen_block m with
    | none => rfl
    | some bytes =>
      rw [ih]
      rfl

/-- C7 (amended): for a fourcc with no dictionary entry, the text-parse
dispatch of `rsgen` and the binary writer `rs_write` both abort fatally,
but the binary decoder does not: `parse_block` swallows the lookup failure
("continue on error") and decoding completes, here shown on an AQFT
container holding one block with the unknown code. -/
theorem unknown_code_behavior (k : ℕ) (h32 : k < W32)
    (hk : find_block_functions k = none) (hsb : superblock k = false) :
    parseBlock 3 (be32enc KEY_AQFT ++ (be32enc 8 ++ (be32enc k ++ be32enc 0))) 16 =
        some ([RNode.mk KEY_AQFT 8 (be32enc k ++ be32enc 0), RNode.mk k 0 []], 0) ∧
      rsgen_dispatch k = none ∧
      ∀ (l₁ l₂ : List RNode) (n : RNode), n.key = k →
        rs_write (l₁ ++ n :: l₂) = none := by
  refine ⟨?_, ?_, ?_⟩
  · have hkey : be32 (be32enc KEY_AQFT ++ (be32enc 8 ++ (be32enc k ++ be32enc 0))) =
        KEY_AQFT := be32_be32enc KEY_AQFT (by decide) _
    have hdrop4 : (be32enc KEY_AQFT ++ (be32enc 8 ++ (be32enc k ++ be32enc 0))).drop 4 =
        be32enc 8 ++ (be32enc k ++ be32enc 0) := rfl
    have hdrop8 : (be32enc KEY_AQFT ++ (be32enc 8 ++ (be32enc k ++ be32enc 0))).drop 8 =
        be32enc k ++ be32enc 0 := rfl
    have hsize0 : be32 (be32enc 8 ++ (be32enc k ++ be32enc 0)) = 8 :=
      be32_be32enc 8 (by decide) _
    have hlen1 : sub64 16 8 = 8 := by decide
    have hinkey : be32 (be32enc k ++ be32enc 0) = k := be32_be32enc k h32 _
    have hindrop4 : (be32enc k ++ be32enc 0).drop 4 = be32enc 0 := rfl
    have hinsize0 : be32 (be32enc 0) = 0 := by decide
    have hindrop8 : (be32enc k ++ be32enc 0).drop 8 = ([] : List ℕ) := rfl
    have hinlen1 : sub64 8 8 = 0 := by decide
    have hsub00 : sub64 0 0 = 0 := by decide
    have hinner : parseBlock 2 (be32enc k ++ be32enc 0) 8 =
        some ([RNode.mk k 0 []], 0) := by
      rw [show (2 : ℕ) = 1 + 1 from rfl,
        parseBlock_step_leaf 1 _ 8 (by norm_num)
          (by rw [hinkey]; exact hsb)
          (by rw [hindrop4, hinsize0, hinlen1]; omega),
        hindrop4, hinsize0, hindrop8, hinlen1, hsub00, List.drop_nil,
        show (1 : ℕ) = 0 + 1 from rfl, parseBlock_len_zero, hinkey]
      simp [padTake]
    have hpt : padTake 8 (be32enc k ++ be32enc 0) = be32enc k ++ be32enc 0 := by
      have hl : (be32enc k ++ be32enc 0).length = 8 := by simp [be32enc]
      unfold padTake
      rw [List.take_append_of_le_length (by rw [hl]), ← hl, List.take_length]
    rw [show (3 : ℕ) = 2 + 1 from rfl,
      parseBlock_step_super 2 _ 16 (by norm_num)
        (by rw [hkey]; decide)
        (by rw [hdrop4, hsize0, hlen1]; omega),
      hdrop4, hsize0, hdrop8, hinner, hindrop8, hlen1, hinlen1,
      show (2 : ℕ) = 1 + 1 from rfl, parseBlock_len_zero, hkey, hpt]
    rfl
  · simp [rsgen_dispatch, hk]
  · intro l₁ l₂ n hn
    exact rs_write_unknown l₁ l₂ n (by rw [hn]; exact hk)

/-- Witness for `unknown_code_behavior` at the unregistered fourcc
"test". -/
theorem unknown_code_behavior_witness :
    (find_block_functions 0x74657374 = none ∧ superblock 0x74657374 = false) ∧
      (parseBlock 3 (be32enc KEY_AQFT ++ (be32enc 8 ++ (be32enc 0x74657374 ++
            be32enc 0))) 16 =
          some ([RNode.mk KEY_AQFT 8 (be32enc 0x74657374 ++ be32enc 0),
            RNode.mk 0x74657374 0 []], 0) ∧
        rsgen_dispatch 0x74657374 = none ∧
        ∀ (l₁ l₂ : List RNode) (n : RNode), n.key = 0x74657374 →
          rs_write (l₁ ++ n :: l₂) = none) :=
  ⟨⟨by decide, by decide⟩,
    unknown_code_behavior 0x74657374 (by decide) (by decide) (by decide)⟩

/-- C7 counterexample: a buffer containing the unregistered code "xxxx"
decodes successfully — the decode direction does not fail fatally on an
unknown type code, because `parse_block` swallows the lookup failure. -/
theorem decode_unknown_code_succeeds :
    find_block_functions 0x78787878 = none ∧
      (parseBlock 3 bufC7 16).isSome = true := by decide

/-- C6 counterexample: for a stored timestamp of 0 the renderer omits the
`filetimestamp:` line entirely, so rendering and re-parsing cannot return
the stored 0 — the claim fails at T = 0. -/
theorem epoch_zero_not_roundtrip :
    ¬ ((dump_mcda_timestamp 0).map make_mcda_timestamp = some 0) := by decide

/-- C6 (amended): for every nonzero stored 32-bit timestamp, rendering
(subtract the epoch offset in 64-bit time_t arithmetic, print with %lu)
then re-parsing (scan with %u keeping the low 32 bits, add the offset
back in 32-bit arithmetic) returns exactly the stored value. -/
theorem epoch_roundtrip_nonzero (t : ℕ) (h32 : t < W32) (h0 : t ≠ 0) :
    (dump_mcda_timestamp t).map make_mcda_timestamp = some t := by
  simp only [dump_mcda_timestamp, if_neg h0, Option.map_some', Option.some.injEq,
    make_mcda_timestamp]
  unfold sub64 EPOCH_OFFSET W32 W64 at *
  omega

/-- Witness for `epoch_roundtrip_nonzero` at the stored value 5 (a 1904
epoch instant below the offset, exercising the wraparound path). -/
theorem epoch_roundtrip_nonzero_witness :
    ((5 : ℕ) < W32 ∧ (5 : ℕ) ≠ 0) ∧
      (dump_mcda_timestamp 5).map make_mcda_timestamp = some 5 :=
  ⟨⟨by decide, by decide⟩, epoch_roundtrip_nonzero 5 (by decide) (by decide)⟩

/-- C8: a sample-array text record whose line count before the blank line
is not a multiple of 3 fails to parse, regardless of what the per-line
sample scanner would say about any individual line. -/
theorem afft_line_count_multiple_of_three {α : Type} (scan : String → Option α)
    (cfg : Config) (lines : List String)
    (h : count_iqdata_lines lines % 3 ≠ 0) :
    make_node_afft scan cfg lines = none := by
  have h0 : count_iqdata_lines lines ≠ 0 := by
    intro e
    rw [e] at h
    exact h rfl
  simp only [make_node_afft]
  rw [if_neg h0, if_pos h]

/-- Witness for `afft_line_count_multiple_of_three`: two sample lines
before the blank line, with a scanner that accepts nothing. -/
theorem afft_line_count_multiple_of_three_witness :
    count_iqdata_lines ["a", "b", ""] % 3 ≠ 0 ∧
      make_node_afft (fun _ => (none : Option ℕ)) (Config.mk 0 0)
        ["a", "b", ""] = none :=
  ⟨by decide, afft_line_count_multiple_of_three _ _ _ (by decide)⟩

theorem read_parameter_unset {α : Type} (f : String → Option α)
    (lines : List String) (hnb : ∀ l ∈ lines, l ≠ "")
    (hnone : ∀ l ∈ lines, f l = none) :
    read_parameter f lines = ReadResult.unset := by
  induction lines with
  | nil => rfl
  | cons l ls ih =>
    have hbeq : (l == "") = false := by
      simpa using hnb l (by simp)
    simp only [read_parameter, hbeq, Bool.false_eq_true, if_false]
    rw [hnone l (by simp)]
    exact ih (fun m hm => hnb m (by simp [hm])) (fun m hm => hnone m (by simp [hm]))

theorem read_parameter_found {α : Type} (f : String → Option α)
    (lines : List String) (hnb : ∀ l ∈ lines, l ≠ "")
    (l₀ : String) (hmem : l₀ ∈ lines) (v : α) (hfv : f l₀ = some v)
    (huniq : ∀ l₁ ∈ lines, ∀ l₂ ∈ lines, ∀ v₁ v₂,
      f l₁ = some v₁ → f l₂ = some v₂ → v₁ = v₂) :
    read_parameter f lines = ReadResult.found v := by
  induction lines with
  | nil => cases hmem
  | cons l ls ih =>
    have hbeq : (l == "") = false := by
      simpa using hnb l (by simp)
    simp only [read_parameter, hbeq, Bool.false_eq_true, if_false]
    cases hf : f l with
    | some w =>
      rw [huniq l (by simp) l₀ hmem w v hf hfv]
    | none =>
      rcases List.mem_cons.mp hmem with rfl | hmem'
      · rw [hf] at hfv
        cases hfv
      · exact ih (fun m hm => hnb m (by simp [hm])) hmem'
          (fun l₁ h₁ l₂ h₂ v₁ v₂ e₁ e₂ =>
            huniq l₁ (by simp [h₁]) l₂ (by simp [h₂]) v₁ v₂ e₁ e₂)

theorem read_parameter_perm {α : Type} (f : String → Option α)
    (lines lines' : List String) (hperm : lines.Perm lines')
    (hnb : ∀ l ∈ lines, l ≠ "")
    (huniq : ∀ l₁ ∈ lines, ∀ l₂ ∈ lines, ∀ v₁ v₂,
      f l₁ = some v₁ → f l₂ = some v₂ → v₁ = v₂) :
    read_parameter f lines = read_parameter f lines' := by
  have hnb' : ∀ l ∈ lines', l ≠ "" := fun l hl => hnb l (hperm.mem_iff.mpr hl)
  have huniq' : ∀ l₁ ∈ lines', ∀ l₂ ∈ lines', ∀ v₁ v₂,
      f l₁ = some v₁ → f l₂ = some v₂ → v₁ = v₂ :=
    fun l₁ h₁ l₂ h₂ v₁ v₂ e₁ e₂ =>
      huniq l₁ (hperm.mem_iff.mpr h₁) l₂ (hperm.mem_iff.mpr h₂) v₁ v₂ e₁ e₂
  by_cases hex : ∃ l ∈ lines, (f l).isSome
  · obtain ⟨l₀, hmem, hsome⟩ := hex
    obtain ⟨v, hv⟩ := Option.isSome_iff_exists.mp hsome
    rw [read_parameter_found f lines hnb l₀ hmem v hv huniq,
      read_parameter_found f lines' hnb' l₀ (hperm.mem_iff.mp hmem) v hv huniq']
  · push_neg at hex
    have hnone : ∀ l ∈ lines, f l = none := by
      intro l hl
      have := hex l hl
      cases hf : f l with
      | none => rfl
      | some w => rw [hf] at this; cases this rfl
    have hnone' : ∀ l ∈ lines', f l = none :=
      fun l hl => hnone l (hperm.mem_iff.mpr hl)
    rw [read_parameter_unset f lines hnb hnone,
      read_parameter_unset f lines' hnb' hnone']

theorem parse_record_congr {α : Type} (fields : List (String → Option α))
    (lines lines' : List String)
    (h : ∀ f ∈ fields, read_parameter f lines = read_parameter f lines') :
    parse_record fields lines = parse_record fields lines' := by
  induction fields with
  | nil => rfl
  | cons f fs ih =>
    have hf := h f (by simp)
    have hrest := ih (fun g hg => h g (by simp [hg]))
    simp only [parse_record, hf, hrest]

/-- C9: parsing a fixed-layout leaf record is invariant under any
permutation of its field lines: every field lookup rescans the same
record lines from the saved record start (`read_parameter` rewinds the
stream after each call), so as long as no permuted line is blank and each
field's matching lines carry a single value, every ordering parses to the
same payload. -/
theorem parse_record_perm_invariant {α : Type}
    (fields : List (String → Option α)) (lines lines' : List String)
    (hperm : lines.Perm lines') (hnb : ∀ l ∈ lines, l ≠ "")
    (huniq : ∀ f ∈ fields, ∀ l₁ ∈ lines, ∀ l₂ ∈ lines, ∀ v₁ v₂,
      f l₁ = some v₁ → f l₂ = some v₂ → v₁ = v₂) :
    parse_record fields lines = parse_record fields lines' :=
  parse_record_congr fields lines lines'
    (fun f hf => read_parameter_perm f lines lines' hperm hnb
      (fun l₁ h₁ l₂ h₂ v₁ v₂ e₁ e₂ => huniq f hf l₁ h₁ l₂ h₂ v₁ v₂ e₁ e₂))

/-- Witness for `parse_record_perm_invariant`: a two-field sign-style
record parsed identically with its field lines swapped. -/
theorem parse_record_perm_invariant_witness :
    (["sitecode:ABCD", "userflags:2f"].Perm ["userflags:2f", "sitecode:ABCD"]) ∧
      parse_record [fieldA, fieldB] ["sitecode:ABCD", "userflags:2f"] =
        parse_record [fieldA, fieldB] ["userflags:2f", "sitecode:ABCD"] := by
  have hperm : (["sitecode:ABCD", "userflags:2f"]).Perm
      ["userflags:2f", "sitecode:ABCD"] := List.Perm.swap _ _ _
  refine ⟨hperm, parse_record_perm_invariant [fieldA, fieldB] _ _ hperm
    (by decide) ?_⟩
  intro f hf l₁ h₁ l₂ h₂ v₁ v₂ e₁ e₂
  simp only [List.mem_cons, List.not_mem_nil, or_false] at hf h₁ h₂
  rcases hf with rfl | rfl <;> rcases h₁ with rfl | rfl <;>
    rcases h₂ with rfl | rfl <;>
    simp [fieldA, fieldB] at e₁ e₂ <;> omega

end RS
